import Mathlib

/-!
A shallow embedding of `SVR_model2.2.py`, a single-pass solar-irradiance
forecasting script, together with proofs of its specified properties.

Modelling conventions:
* Numeric values carried by the data pipeline are embedded as `ℚ` (exact
  arithmetic standing in for the script's floating-point values).
* A pandas column with possible missing values is a `List (Option ℚ)`.
* The DataFrame index (`df.index`, timestamps) is a `List Nat`.
* Python/pandas slicing `s[a:b]` is `(s.take b).drop a`; `s.tail n` keeps the
  last `n` elements; slices clamp at the ends exactly as `take`/`drop` do.
-/

namespace SVR

/-- Source line 46: `n_lags = 24`, the number of past time steps used as
features. -/
def n_lags : Nat := 24

/-- Source line 175: `N_LAGS = 24`, the duplicated lag-count constant used by
the later plotting section. -/
def N_LAGS : Nat := 24

/-- Source lines 51-52, 55: the feature matrix `X`. For each `i` in
`range(n_lags, len(data))` the row is `data['irradiance'].iloc[i-n_lags:i]`,
i.e. the slice of the irradiance series from `i - n_lags` (inclusive) to `i`
(exclusive). -/
def makeX (s : List ℚ) : List (List ℚ) :=
  (List.range' n_lags (s.length - n_lags)).map fun i => (s.take i).drop (i - n_lags)

/-- Source lines 51, 53, 56: the target vector `y`. For each `i` in
`range(n_lags, len(data))` the label is `data['irradiance'].iloc[i]`. -/
def makeY (s : List ℚ) : List ℚ :=
  (List.range' n_lags (s.length - n_lags)).map fun i => s.getD i 0

/-- Source line 62: `train_size = int(len(X) * 0.8)`. For every feasible
sample count `M` the float product `M * 0.8` truncates to the exact
mathematical `⌊0.8 · M⌋`, which over `Nat` is `4 * M / 5`. -/
def train_size (M : Nat) : Nat := 4 * M / 5

/-- Source lines 63-64: `X[0:train_size]` (and `y[0:train_size]`), the
leading training segment of a sample sequence. -/
def splitTrain {α : Type} (l : List α) : List α := l.take (train_size l.length)

/-- Source lines 63-64: `X[train_size:]` (and `y[train_size:]`), the trailing
test segment of a sample sequence. -/
def splitTest {α : Type} (l : List α) : List α := l.drop (train_size l.length)

/-- Source lines 94-95: the first `test_index` computation,
`df.index[start : start + len(y_test)]` with
`start = n_lags + (len(df) - len(data)) + train_size`, where
`offset = len(df) - len(data)` is the tail-truncation offset introduced by
`data.tail(10000)` at line 41. `k` is `len(y_test)`. -/
def testIndexMain (idx : List Nat) (offset trainSize k : Nat) : List Nat :=
  ((idx.take (n_lags + offset + trainSize + k)).drop (n_lags + offset + trainSize))

/-- Source line 203: the second `test_index` computation,
`df.index[N_LAGS + len(X_train) : N_LAGS + len(X_train) + len(y_test)]`,
where `len(X_train) = train_size`. `k` is `len(y_test)`. -/
def testIndexPlot (idx : List Nat) (trainSize k : Nat) : List Nat :=
  ((idx.take (N_LAGS + trainSize + k)).drop (N_LAGS + trainSize))

/-! ### Min-max scaling (source lines 70-80)

`sklearn.preprocessing.MinMaxScaler` with the default feature range `(0, 1)`:
`fit` records the column-wise data minimum and maximum of its input;
`transform` maps `x` to `(x - data_min) / r` and `inverse_transform` maps `z`
to `z * r + data_min`, where `r` is `data_max - data_min` guarded by sklearn's
`_handle_zeros_in_scale` (a zero range is replaced by `1`). -/

/-- sklearn `_handle_zeros_in_scale`: a zero scale denominator is replaced
by `1`. -/
def handleZeros (r : ℚ) : ℚ := if r = 0 then 1 else r

/-- `MinMaxScaler.transform` for one scalar entry, given the fitted column
minimum `mn` and maximum `mx`. -/
def scaleElem (mn mx x : ℚ) : ℚ := (x - mn) / handleZeros (mx - mn)

/-- `MinMaxScaler.inverse_transform` for one scalar entry, given the fitted
column minimum `mn` and maximum `mx`. -/
def invScaleElem (mn mx z : ℚ) : ℚ := z * handleZeros (mx - mn) + mn

/-- Minimum of a (column) vector, as computed by `np.min` over a non-empty
array; `0` on the empty array only as a placeholder (sklearn would reject an
empty fit). -/
def listMin : List ℚ → ℚ
  | [] => 0
  | x :: xs => xs.foldl min x

/-- Maximum of a (column) vector, `np.max` analogue of `listMin`. -/
def listMax : List ℚ → ℚ
  | [] => 0
  | x :: xs => xs.foldl max x

/-- Column-wise minima of a row-major matrix (`X.min(axis=0)`). -/
def colMins : List (List ℚ) → List ℚ
  | [] => []
  | r :: rest => rest.foldl (fun acc row => List.zipWith min acc row) r

/-- Column-wise maxima of a row-major matrix (`X.max(axis=0)`). -/
def colMaxs : List (List ℚ) → List ℚ
  | [] => []
  | r :: rest => rest.foldl (fun acc row => List.zipWith max acc row) r

/-- The fitted state of `scaler_X` after `scaler_X.fit_transform(X_train)`
(source line 73): the pair of column-wise data minima and maxima of the
training feature matrix only. -/
def fitScalerX (Xtr : List (List ℚ)) : List ℚ × List ℚ := (colMins Xtr, colMaxs Xtr)

/-- `scaler_X.transform` applied to a row-major matrix using fitted
parameters `p`. -/
def transformX (p : List ℚ × List ℚ) (rows : List (List ℚ)) : List (List ℚ) :=
  rows.map fun row => List.zipWith (fun mm x => scaleElem mm.1 mm.2 x) (p.1.zip p.2) row

/-- The fitted state of `scaler_y` after `scaler_y.fit_transform(y_train...)`
(source line 79): the data minimum and maximum of the (single-column)
training label vector only. -/
def fitScalerY (ytr : List ℚ) : ℚ × ℚ := (listMin ytr, listMax ytr)

/-- The whole scaling stage, source lines 70-80: fit `scaler_X` on `X_train`
and `scaler_y` on `y_train`, then transform both splits with the fitted
parameters (the test split is transformed, never refit). -/
structure ScaledData where
  xParams : List ℚ × List ℚ
  yParams : ℚ × ℚ
  XtrainScaled : List (List ℚ)
  XtestScaled : List (List ℚ)
  ytrainScaled : List ℚ
  ytestScaled : List ℚ

/-- Source lines 70-80 as one function of the four split arrays. -/
def scaleStage (Xtr Xte : List (List ℚ)) (ytr yte : List ℚ) : ScaledData :=
  let pX := fitScalerX Xtr
  let pY := fitScalerY ytr
  ⟨pX, pY,
   transformX pX Xtr, transformX pX Xte,
   ytr.map (scaleElem pY.1 pY.2), yte.map (scaleElem pY.1 pY.2)⟩

/-! ### Missing-value imputation (source lines 33-35)

`data.ffill().bfill()` acts column-wise: forward fill carries the last valid
value forward over missing entries, backward fill then carries the next valid
value backward over the (leading) entries still missing. -/

/-- One forward pass of `ffill` over a column, `c` being the last valid value
seen so far (`none` at the start of the column). -/
def ffillAux (c : Option ℚ) : List (Option ℚ) → List (Option ℚ)
  | [] => []
  | v :: t =>
    match v with
    | some x => some x :: ffillAux (some x) t
    | none => c :: ffillAux c t

/-- `Series.ffill`: propagate the last valid value forward. -/
def ffill (l : List (Option ℚ)) : List (Option ℚ) := ffillAux none l

/-- `Series.bfill`: propagate the next valid value backward; realised as a
forward fill of the reversed column. -/
def bfill (l : List (Option ℚ)) : List (Option ℚ) := (ffillAux none l.reverse).reverse

/-- Source line 35: `data.ffill().bfill()` on one column. -/
def fillna (l : List (Option ℚ)) : List (Option ℚ) := bfill (ffill l)

/-- The carry left by a forward pass over `xs` that started with carry `c`:
the last valid value in `xs`, or `c` if `xs` has none. `lastValid (l.take i)`
is "the last valid value preceding position `i`". -/
def lastCarry (c : Option ℚ) (xs : List (Option ℚ)) : Option ℚ :=
  xs.foldl (fun acc v => if v.isSome then v else acc) c

/-- The last valid value of a column prefix (and `none` if there is none). -/
def lastValid (xs : List (Option ℚ)) : Option ℚ := lastCarry none xs

/-! ### Loader (source lines 14-20)

The script wraps `pd.read_csv` in `try`/`except FileNotFoundError`; on the
exception it prints a diagnostic and calls `exit()`. Python's `exit()` with
no argument raises `SystemExit(None)`, which terminates the process with
status `0`. The loader is modelled as a function of the file contents
(`none` = file missing) returning the printed lines and either
`Except.error c` — immediate process termination with exit status `c`,
nothing after it runs — or `Except.ok` with the loaded table. -/

/-- Source lines 14-20: the `try`/`except` around `pd.read_csv`. -/
def loadStage {α : Type} (file : Option α) : List String × Except Nat α :=
  match file with
  | some t => (["Dataset loaded successfully."], Except.ok t)
  | none =>
    (["Error: 'cleaned_dataset.csv' not found. Please ensure the file is in the same directory."],
     Except.error 0)

/-! ### Split-to-fit control flow (source lines 62-87)

After computing `train_size` and slicing the four split arrays, the script
proceeds unconditionally: `scaler_X.fit_transform(X_train)` (line 73),
`scaler_y.fit_transform(...)` (line 79) and `svr_model.fit(...)` (line 87)
are executed with whatever arrays the split produced; there is no emptiness
check and no named data-insufficiency error anywhere in between. -/

/-- What the pipeline does after the split: either raise an explicit named
data-insufficiency failure (the outcome the specification demands for an
empty partition) or hand the training arrays on to the scaler and estimator
stages. -/
inductive FitOutcome where
  | insufficiencyFailure (msg : String) : FitOutcome
  | proceed (Xtr : List (List ℚ)) (ytr : List ℚ) : FitOutcome
  deriving DecidableEq

/-- Source lines 51-64 followed by 70-87: window the series, split, and pass
straight into scaling/fitting. The source has no branch that could produce
`insufficiencyFailure`. -/
def fitStage (series : List ℚ) : FitOutcome :=
  let X := makeX series
  let y := makeY series
  FitOutcome.proceed (splitTrain X) (splitTrain y)

/-! ### Error metrics (source lines 99-102, 252-257) -/

/-- The residual vector `y_test - predictions` (element-wise). -/
def residuals (actual pred : List ℚ) : List ℚ := List.zipWith (fun a p => a - p) actual pred

/-- `mean_squared_error(y_test, predictions)` (line 99, before `np.sqrt`). -/
def mse (actual pred : List ℚ) : ℚ :=
  ((residuals actual pred).map (fun r => r ^ 2)).sum / ((residuals actual pred).length : ℚ)

/-- `mean_absolute_error(y_test, predictions)` (line 100). -/
def mae (actual pred : List ℚ) : ℚ :=
  ((residuals actual pred).map (fun r => |r|)).sum / ((residuals actual pred).length : ℚ)

/-- The `1e-8` safety constant added to the denominator of the main MAPE
(source line 102). -/
def epsSafety : ℚ := 1 / 100000000

/-- Division as numpy evaluates it inside a mean: a zero denominator is not a
real number (`inf`/`nan`), modelled as `none`. -/
def safeDiv (x y : ℚ) : Option ℚ := if y = 0 then none else some (x / y)

/-- Collect a list of optional values; `none` as soon as any entry is
undefined (an undefined term poisons the numpy mean). -/
def allSome : List (Option ℚ) → Option (List ℚ)
  | [] => some []
  | v :: t =>
    match v with
    | some x => (allSome t).map (fun l => x :: l)
    | none => none

/-- Source line 102: the main MAPE,
`np.mean(np.abs((y_test - predictions) / (y_test + 1e-8))) * 100` — the
denominator carries the `1e-8` guard. -/
def mape (actual pred : List ℚ) : Option ℚ :=
  (allSome (List.zipWith (fun a p => (safeDiv (a - p) (a + epsSafety)).map (fun q => |q|))
    actual pred)).map (fun l => l.sum / (l.length : ℚ) * 100)

/-- Source line 256: the per-town MAPE inside `analyze_town_performance`,
`np.mean(np.abs((x['actual'] - x['predicted']) / x['actual'])) * 100` — the
denominator is the raw actual value, with no guard. -/
def townMAPE (actual pred : List ℚ) : Option ℚ :=
  (allSome (List.zipWith (fun a p => (safeDiv (a - p) a).map (fun q => |q|))
    actual pred)).map (fun l => l.sum / (l.length : ℚ) * 100)

/-! ### Helper lemmas -/

theorem getD_drop {α : Type} (l : List α) (c j : Nat) (d : α) :
    (l.drop c).getD j d = l.getD (c + j) d := by
  rw [List.getD_eq_getElem?_getD, List.getD_eq_getElem?_getD, List.getElem?_drop]

theorem getD_take {α : Type} (l : List α) (c j : Nat) (d : α) (h : j < c) :
    (l.take c).getD j d = l.getD j d := by
  rw [List.getD_eq_getElem?_getD, List.getD_eq_getElem?_getD]
  simp [List.getElem?_take, h]

theorem getD_map_range' {α : Type} (f : Nat → α) (a n k : Nat) (d : α) (h : k < n) :
    ((List.range' a n).map f).getD k d = f (a + k) := by
  rw [List.getD_eq_getElem?_getD, List.getElem?_map]
  have hk : (List.range' a n)[k]? = some (a + k) := by
    rw [List.getElem?_eq_getElem (by simpa using h)]
    simp [List.getElem_range']
  rw [hk]
  rfl

/-! ### C1: the two test-index computations -/

/-- C1. For every run with a non-empty test set (`1 ≤ k`), a duplicate-free
timestamp index, and slices that stay inside the index (which holds in every
actual run, where `n_lags + offset + trainSize + k = len(df)` exactly), the
two `test_index` computations of source lines 94-95 and 203 select the same
timestamp range if and only if the tail-truncation offset
`len(df) - len(data)` is zero. -/
theorem c1_test_index_agree_iff_offset_zero
    (idx : List Nat) (offset trainSize k : Nat)
    (hnd : idx.Nodup) (hk : 1 ≤ k)
    (hrange : n_lags + offset + trainSize + k ≤ idx.length) :
    testIndexMain idx offset trainSize k = testIndexPlot idx trainSize k ↔ offset = 0 := by
  constructor
  · intro heq
    have ha : (testIndexMain idx offset trainSize k)[0]? =
        idx[n_lags + offset + trainSize]? := by
      simp only [testIndexMain, List.getElem?_drop, List.getElem?_take]
      rw [if_pos (by omega)]
      simp
    have hb : (testIndexPlot idx trainSize k)[0]? = idx[N_LAGS + trainSize]? := by
      simp only [testIndexPlot, List.getElem?_drop, List.getElem?_take]
      rw [if_pos (by omega)]
      simp
    have hsame : idx[n_lags + offset + trainSize]? = idx[N_LAGS + trainSize]? := by
      rw [← ha, ← hb, heq]
    have hLL : n_lags = N_LAGS := rfl
    have := List.getElem?_inj (by omega) hnd hsame
    omega
  · intro h
    subst h
    simp [testIndexMain, testIndexPlot, n_lags, N_LAGS]

/-- Witness for C1 at a concrete index of 40 distinct timestamps with
`offset = 0`, `trainSize = 3`, `k = 2`. -/
theorem c1_witness :
    testIndexMain (List.range 40) 0 3 2 = testIndexPlot (List.range 40) 3 2 :=
  (c1_test_index_agree_iff_offset_zero (List.range 40) 0 3 2
    (List.nodup_range 40) (by decide) (by decide)).mpr rfl

/-! ### C3: the windowing loop -/

/-- C3. For every series of length `N` and the source's lag count
`n_lags = 24`: the loop of lines 51-56 produces exactly `N - n_lags`
(truncated subtraction, i.e. `max (N - 24) 0`) samples; when `n_lags < N`
every feature row has length `n_lags`, row `k` holds the irradiance values at
positions `[k, k + n_lags)` in chronological order (that is, the 24 values
immediately preceding position `n_lags + k`), and label `k` is the irradiance
at position `n_lags + k`; when `N ≤ n_lags` the loop produces zero samples
and no error. -/
theorem c3_windowing (s : List ℚ) :
    (makeX s).length = s.length - n_lags ∧
    (makeY s).length = s.length - n_lags ∧
    (∀ k, k < s.length - n_lags →
      ((makeX s).getD k []).length = n_lags ∧
      (∀ j, j < n_lags → ((makeX s).getD k []).getD j 0 = s.getD (k + j) 0) ∧
      (makeY s).getD k 0 = s.getD (n_lags + k) 0) ∧
    (s.length ≤ n_lags → makeX s = [] ∧ makeY s = []) := by
  refine ⟨by simp [makeX], by simp [makeY], ?_, ?_⟩
  · intro k hk
    have hrow : (makeX s).getD k [] = (s.take (n_lags + k)).drop k := by
      rw [makeX, getD_map_range' _ _ _ _ _ hk]
      congr 1
      omega
    have hlen : n_lags + k ≤ s.length := by omega
    refine ⟨?_, ?_, ?_⟩
    · rw [hrow]
      simp
      omega
    · intro j hj
      rw [hrow, getD_drop, getD_take]
      omega
    · rw [makeY, getD_map_range' _ _ _ _ _ hk]
  · intro h
    have : s.length - n_lags = 0 := by omega
    simp [makeX, makeY, this]

/-- Witness for C3 at a concrete series of 30 values: 6 samples, a feature
entry, a label entry, and the degenerate case at a series of 10 values. -/
theorem c3_witness :
    (makeX (List.replicate 30 (1 : ℚ))).length = 6 ∧
    ((makeX (List.replicate 30 (1 : ℚ))).getD 2 []).getD 5 0 =
      (List.replicate 30 (1 : ℚ)).getD 7 0 ∧
    (makeY (List.replicate 30 (1 : ℚ))).getD 2 0 =
      (List.replicate 30 (1 : ℚ)).getD (n_lags + 2) 0 ∧
    makeX (List.replicate 10 (1 : ℚ)) = [] := by
  have h := c3_windowing (List.replicate 30 (1 : ℚ))
  have h2 := h.2.2.1 2 (by decide)
  have hs := c3_windowing (List.replicate 10 (1 : ℚ))
  refine ⟨?_, h2.2.1 5 (by decide), h2.2.2, (hs.2.2.2 (by decide)).1⟩
  rw [h.1]
  decide

/-! ### C4: the chronological 80/20 split -/

/-- C4. For every sample sequence of length `M` the split boundary of source
line 62 is `⌊0.8 · M⌋ = 4 * M / 5`; the training set is exactly the first
`boundary` samples and the test set exactly the remainder in original order,
and concatenating train then test reconstructs the original sequence with no
overlap and no omission (the lengths add up to `M`). -/
theorem c4_split {α : Type} (l : List α) (d : α) :
    splitTrain l ++ splitTest l = l ∧
    (splitTrain l).length = 4 * l.length / 5 ∧
    (splitTest l).length = l.length - 4 * l.length / 5 ∧
    (∀ i, i < 4 * l.length / 5 → (splitTrain l).getD i d = l.getD i d) ∧
    (∀ j, (splitTest l).getD j d = l.getD (4 * l.length / 5 + j) d) := by
  refine ⟨List.take_append_drop _ l, ?_, ?_, ?_, ?_⟩
  · simp [splitTrain, train_size]
    omega
  · simp [splitTest, train_size]
  · intro i hi
    rw [splitTrain, train_size, getD_take _ _ _ _ hi]
  · intro j
    rw [splitTest, train_size, getD_drop]

/-- Witness for C4 at a concrete sequence of 7 samples: boundary 5, train
then test reconstructs the input, and two element lookups. -/
theorem c4_witness :
    splitTrain [10, 11, 12, 13, 14, 15, 16] ++ splitTest [10, 11, 12, 13, 14, 15, 16] =
      ([10, 11, 12, 13, 14, 15, 16] : List ℚ) ∧
    (splitTrain ([10, 11, 12, 13, 14, 15, 16] : List ℚ)).length = 5 ∧
    (splitTrain ([10, 11, 12, 13, 14, 15, 16] : List ℚ)).getD 4 0 =
      ([10, 11, 12, 13, 14, 15, 16] : List ℚ).getD 4 0 ∧
    (splitTest ([10, 11, 12, 13, 14, 15, 16] : List ℚ)).getD 1 0 =
      ([10, 11, 12, 13, 14, 15, 16] : List ℚ).getD 6 0 := by
  have h := c4_split ([10, 11, 12, 13, 14, 15, 16] : List ℚ) 0
  exact ⟨h.1, by simpa using h.2.1, h.2.2.2.1 4 (by simp), by simpa using h.2.2.2.2 1⟩

/-! ### C2: no data-insufficiency check exists -/

/-- C2 (code bug). The specification demands an explicit, named
data-insufficiency failure when the split leaves an empty train or test
partition. The source has no such check: `fitStage` (lines 51-64 followed by
70-87) hands the split arrays straight to the scaler/estimator for every
input series, and on a series of 25 values (one sample, `train_size = 0`)
it reaches the fit call with empty training arrays. -/
theorem c2_empty_train_reaches_fit :
    (∀ series : List ℚ, ∃ Xtr ytr, fitStage series = FitOutcome.proceed Xtr ytr) ∧
    fitStage (List.replicate 25 (1 : ℚ)) = FitOutcome.proceed [] [] := by
  constructor
  · intro s
    exact ⟨_, _, rfl⟩
  · decide

/-! ### C5: scaler parameters depend on the training partition only -/

/-- C5. The fitted min/max parameters of both scalers (source lines 70-80)
are a function of the training partition only: two runs of the scaling stage
with the same training data and different test data fit identical parameters
for features and labels, and the test partition is transformed with exactly
those training-fitted parameters, never refit. -/
theorem c5_scaler_fit_train_only
    (Xtr : List (List ℚ)) (ytr : List ℚ)
    (Xte Xte2 : List (List ℚ)) (yte yte2 : List ℚ) :
    (scaleStage Xtr Xte ytr yte).xParams = (scaleStage Xtr Xte2 ytr yte2).xParams ∧
    (scaleStage Xtr Xte ytr yte).yParams = (scaleStage Xtr Xte2 ytr yte2).yParams ∧
    (scaleStage Xtr Xte ytr yte).xParams = fitScalerX Xtr ∧
    (scaleStage Xtr Xte ytr yte).yParams = fitScalerY ytr ∧
    (scaleStage Xtr Xte ytr yte).XtestScaled = transformX (fitScalerX Xtr) Xte ∧
    (scaleStage Xtr Xte ytr yte).ytestScaled =
      yte.map (scaleElem (fitScalerY ytr).1 (fitScalerY ytr).2) :=
  ⟨rfl, rfl, rfl, rfl, rfl, rfl⟩

/-! ### C6: the label scaler round-trip -/

/-- C6. For the label scaler fitted on a training partition whose minimum is
strictly below its maximum, `inverse_transform` exactly inverts `transform`
on every value in the training range, and values outside the training range
map outside `[0, 1]` with no clamping: below the minimum the scaled value is
negative, above the maximum it exceeds `1`. -/
theorem c6_label_scaler_roundtrip
    (ytr : List ℚ) (x : ℚ) (h : listMin ytr < listMax ytr) :
    (listMin ytr ≤ x → x ≤ listMax ytr →
      invScaleElem (listMin ytr) (listMax ytr)
        (scaleElem (listMin ytr) (listMax ytr) x) = x) ∧
    (x < listMin ytr → scaleElem (listMin ytr) (listMax ytr) x < 0) ∧
    (listMax ytr < x → 1 < scaleElem (listMin ytr) (listMax ytr) x) := by
  have hr : listMax ytr - listMin ytr ≠ 0 := by
    intro hc
    have : listMax ytr = listMin ytr := by linarith
    exact absurd (this ▸ h) (lt_irrefl _)
  have hz : handleZeros (listMax ytr - listMin ytr) = listMax ytr - listMin ytr :=
    if_neg hr
  have hpos : 0 < listMax ytr - listMin ytr := by linarith
  refine ⟨?_, ?_, ?_⟩
  · intro _ _
    rw [invScaleElem, scaleElem, hz]
    field_simp
  · intro hlt
    rw [scaleElem, hz]
    apply div_neg_of_neg_of_pos _ hpos
    linarith
  · intro hgt
    rw [scaleElem, hz, lt_div_iff₀ hpos]
    linarith

/-- Witness for C6 with the label vector `[0, 2]` (minimum 0, maximum 2):
round-trip at `x = 1`, under-range at `x = -1`, over-range at `x = 3`. -/
theorem c6_witness :
    invScaleElem (listMin [0, 2]) (listMax [0, 2])
      (scaleElem (listMin [0, 2]) (listMax [0, 2]) 1) = (1 : ℚ) ∧
    scaleElem (listMin [0, 2]) (listMax [0, 2]) (-1) < 0 ∧
    1 < scaleElem (listMin [0, 2]) (listMax [0, 2]) 3 := by
  refine ⟨(c6_label_scaler_roundtrip [0, 2] 1 (by decide)).1 (by decide) (by decide),
    (c6_label_scaler_roundtrip [0, 2] (-1) (by decide)).2.1 (by decide),
    (c6_label_scaler_roundtrip [0, 2] 3 (by decide)).2.2 (by decide)⟩

/-! ### C7: forward/backward fill -/

theorem ffillAux_length (c : Option ℚ) (l : List (Option ℚ)) :
    (ffillAux c l).length = l.length := by
  induction l generalizing c with
  | nil => rfl
  | cons v t ih =>
    cases v with
    | none => simp [ffillAux, ih]
    | some x => simp [ffillAux, ih]

theorem lastCarry_cons (c v : Option ℚ) (xs : List (Option ℚ)) :
    lastCarry c (v :: xs) = lastCarry (if v.isSome then v else c) xs := rfl

theorem ffillAux_getD (l : List (Option ℚ)) (c : Option ℚ) (i : Nat) (h : i < l.length) :
    (ffillAux c l).getD i none =
      if (l.getD i none).isSome then l.getD i none else lastCarry c (l.take i) := by
  induction l generalizing c i with
  | nil => simp at h
  | cons v t ih =>
    cases i with
    | zero =>
      cases v with
      | none => simp [ffillAux, lastCarry]
      | some x => simp [ffillAux]
    | succ n =>
      have h2 : n < t.length := by simpa using h
      cases v with
      | none =>
        simp only [ffillAux, List.getD_cons_succ, List.take_succ_cons, lastCarry_cons]
        rw [ih c n h2]
        simp
      | some x =>
        simp only [ffillAux, List.getD_cons_succ, List.take_succ_cons, lastCarry_cons]
        rw [ih (some x) n h2]
        simp

theorem lastCarry_isSome_of_carry (xs : List (Option ℚ)) (c : Option ℚ) (h : c.isSome) :
    (lastCarry c xs).isSome := by
  induction xs generalizing c with
  | nil => exact h
  | cons v t ih =>
    rw [lastCarry_cons]
    apply ih
    cases v with
    | none => simpa using h
    | some x => simp

theorem lastCarry_isSome_of_mem (xs : List (Option ℚ)) (c : Option ℚ) (x : ℚ)
    (h : some x ∈ xs) : (lastCarry c xs).isSome := by
  induction xs generalizing c with
  | nil => simp at h
  | cons v t ih =>
    rw [lastCarry_cons]
    rcases List.mem_cons.mp h with h1 | h2
    · apply lastCarry_isSome_of_carry
      rw [← h1]
      simp
    · exact ih _ h2

theorem getD_mem_of_lt (xs : List (Option ℚ)) (j : Nat) (h : j < xs.length) :
    xs.getD j none ∈ xs := by
  rw [List.getD_eq_getElem?_getD, List.getElem?_eq_getElem h]
  exact List.getElem_mem h

theorem getD_reverse (l : List (Option ℚ)) (i : Nat) (h : i < l.length) :
    l.reverse.getD i none = l.getD (l.length - 1 - i) none := by
  have h2 : i < l.reverse.length := by simpa using h
  rw [List.getD_eq_getElem?_getD, List.getD_eq_getElem?_getD,
    List.getElem?_eq_getElem h2, List.getElem?_eq_getElem (by omega)]
  simp [List.getElem_reverse]

theorem bfill_getD_of_isSome (l : List (Option ℚ)) (i : Nat) (h : i < l.length)
    (hs : (l.getD i none).isSome) : (bfill l).getD i none = l.getD i none := by
  have hm : (ffillAux none l.reverse).length = l.length := by
    rw [ffillAux_length, List.length_reverse]
  have hrev : l.reverse.getD (l.length - 1 - i) none = l.getD i none := by
    rw [getD_reverse l (l.length - 1 - i) (by omega)]
    congr 1
    omega
  rw [bfill, getD_reverse (ffillAux none l.reverse) i (by omega), hm,
    ffillAux_getD l.reverse none (l.length - 1 - i) (by rw [List.length_reverse]; omega),
    hrev, if_pos hs]

theorem bfill_getD_isSome_of_later (l : List (Option ℚ)) (i j : Nat)
    (hi : i < l.length) (hj : j < l.length) (hij : i ≤ j)
    (hs : (l.getD j none).isSome) : ((bfill l).getD i none).isSome := by
  rcases Nat.eq_or_lt_of_le hij with heq | hlt
  · subst heq
    rw [bfill_getD_of_isSome l i hi hs]
    exact hs
  · have hm : (ffillAux none l.reverse).length = l.length := by
      rw [ffillAux_length, List.length_reverse]
    have hrev : l.reverse.getD (l.length - 1 - i) none = l.getD i none := by
      rw [getD_reverse l (l.length - 1 - i) (by omega)]
      congr 1
      omega
    rw [bfill, getD_reverse (ffillAux none l.reverse) i (by omega), hm,
      ffillAux_getD l.reverse none (l.length - 1 - i) (by rw [List.length_reverse]; omega)]
    by_cases hcase : (l.reverse.getD (l.length - 1 - i) none).isSome
    · rw [if_pos hcase]
      exact hcase
    · rw [if_neg hcase]
      obtain ⟨x, hx⟩ := Option.isSome_iff_exists.mp hs
      have hj3 : l.reverse.getD (l.length - 1 - j) none = l.getD j none := by
        rw [getD_reverse l (l.length - 1 - j) (by omega)]
        congr 1
        omega
      have hval : (l.reverse.take (l.length - 1 - i)).getD (l.length - 1 - j) none = some x := by
        rw [getD_take _ _ _ _ (by omega), hj3, hx]
      have hmem : (l.reverse.take (l.length - 1 - i)).getD (l.length - 1 - j) none ∈
          l.reverse.take (l.length - 1 - i) := by
        apply getD_mem_of_lt
        rw [List.length_take, List.length_reverse]
        omega
      rw [hval] at hmem
      exact lastCarry_isSome_of_mem _ none x hmem

theorem ffill_getD (l : List (Option ℚ)) (i : Nat) (h : i < l.length) :
    (ffill l).getD i none =
      if (l.getD i none).isSome then l.getD i none else lastValid (l.take i) :=
  ffillAux_getD l none i h

/-- C7. For every column in which at least one valid (non-missing) value
exists, applying forward fill then backward fill (source line 35, acting
column-wise on the four selected columns) leaves zero missing values at
every position; and every position inside an interior gap — a missing entry
with some valid entry before it — receives the last valid value preceding
the gap. -/
theorem c7_ffill_bfill (l : List (Option ℚ)) (hx : ∃ x : ℚ, some x ∈ l) :
    (∀ i, i < l.length → ((fillna l).getD i none).isSome) ∧
    (∀ i, i < l.length → l.getD i none = none →
      (∃ j, j < i ∧ (l.getD j none).isSome) →
      (fillna l).getD i none = lastValid (l.take i)) := by
  have hflen : (ffill l).length = l.length := ffillAux_length none l
  constructor
  · intro i hi
    by_cases hcase : ((ffill l).getD i none).isSome
    · rw [fillna, bfill_getD_of_isSome (ffill l) i (by omega) hcase]
      exact hcase
    · obtain ⟨x, hmem⟩ := hx
      obtain ⟨j, hj, hjx⟩ := List.mem_iff_getElem.mp hmem
      have hjD : (l.getD j none).isSome := by
        rw [List.getD_eq_getElem?_getD, List.getElem?_eq_getElem hj, hjx]
        rfl
      have hchar := ffill_getD l i hi
      have hli : ¬ (l.getD i none).isSome := by
        intro hli
        apply hcase
        rw [hchar, if_pos hli]
        exact hli
      have hnone : lastValid (l.take i) = none := by
        rw [if_neg hli] at hchar
        rw [← hchar]
        exact Option.not_isSome_iff_eq_none.mp hcase
      have hij : i < j := by
        rcases Nat.lt_trichotomy j i with h1 | h2 | h3
        · exfalso
          have hvt : (l.take i).getD j none = some x := by
            rw [getD_take l i j none h1, List.getD_eq_getElem?_getD,
              List.getElem?_eq_getElem hj, hjx]
            rfl
          have hmem2 : some x ∈ l.take i := by
            rw [← hvt]
            apply getD_mem_of_lt
            rw [List.length_take]
            omega
          have hsome := lastCarry_isSome_of_mem (l.take i) none x hmem2
          rw [show lastCarry none (l.take i) = lastValid (l.take i) from rfl, hnone] at hsome
          simp at hsome
        · exfalso
          subst h2
          exact hli hjD
        · exact h3
      have hfj : ((ffill l).getD j none).isSome := by
        rw [ffill_getD l j hj, if_pos hjD]
        exact hjD
      rw [fillna]
      exact bfill_getD_isSome_of_later (ffill l) i j (by omega) (by omega)
        (le_of_lt hij) hfj
  · intro i hi hnone hprev
    obtain ⟨j, hji, hjs⟩ := hprev
    have hchar := ffill_getD l i hi
    rw [if_neg (by rw [hnone]; simp)] at hchar
    obtain ⟨x, hx⟩ := Option.isSome_iff_exists.mp hjs
    have hmem : some x ∈ l.take i := by
      have hvt : (l.take i).getD j none = some x := by
        rw [getD_take l i j none hji, hx]
      rw [← hvt]
      apply getD_mem_of_lt
      rw [List.length_take]
      omega
    have hsome : ((ffill l).getD i none).isSome := by
      rw [hchar]
      exact lastCarry_isSome_of_mem (l.take i) none x hmem
    rw [fillna, bfill_getD_of_isSome (ffill l) i (by omega) hsome, hchar]

/-- Witness for C7 at the concrete column
`[some 5, none, none, some 2, none]`: the backward-filled trailing position
is valid, and the interior-gap position 2 receives the last valid value
preceding the gap. -/
theorem c7_witness :
    ((fillna [some 5, none, none, some 2, none]).getD 4 none).isSome ∧
    (fillna [some (5 : ℚ), none, none, some 2, none]).getD 2 none =
      lastValid ([some (5 : ℚ), none, none, some 2, none].take 2) := by
  have h := c7_ffill_bfill [some (5 : ℚ), none, none, some 2, none] ⟨5, by decide⟩
  exact ⟨h.1 4 (by decide), h.2 2 (by decide) rfl ⟨0, by decide, by decide⟩⟩

/-! ### C8: behaviour on a missing input file -/

/-- C8 counterexample. The claim asserts a non-zero-equivalent early exit,
but line 20 of the source calls Python's `exit()` with no argument, which
raises `SystemExit(None)` and terminates the process with status `0`: no
exit with a non-zero status exists in the missing-file run. -/
theorem c8_counterexample :
    ¬ ∃ c : Nat, (loadStage (none : Option (List (List ℚ)))).2 = Except.error c ∧ c ≠ 0 := by
  rintro ⟨c, hc, hne⟩
  have h0 : (loadStage (none : Option (List (List ℚ)))).2 = Except.error 0 := rfl
  rw [h0] at hc
  injection hc with h
  exact hne h.symm

/-- C8 amended. When the input file is missing, the program prints exactly
one diagnostic line and terminates immediately — nothing further runs and no
further output is produced — but via `exit()`, i.e. with the zero (success)
exit status, not a non-zero one. -/
theorem c8_missing_file_diag_then_exit :
    loadStage (none : Option (List (List ℚ))) =
      (["Error: 'cleaned_dataset.csv' not found. Please ensure the file is in the same directory."],
        Except.error 0) := rfl

/-! ### C9: RMSE dominates MAE -/

theorem sum_abs_nonneg (t : List ℚ) : 0 ≤ (t.map (fun r => |r|)).sum := by
  induction t with
  | nil => simp
  | cons a u ih =>
    simp only [List.map_cons, List.sum_cons]
    have := abs_nonneg a
    linarith

theorem two_mul_abs_sum_le (a : ℚ) (t : List ℚ) :
    2 * |a| * (t.map (fun r => |r|)).sum ≤
      (t.length : ℚ) * a ^ 2 + (t.map (fun r => r ^ 2)).sum := by
  induction t with
  | nil => simp
  | cons b u ih =>
    simp only [List.map_cons, List.sum_cons, List.length_cons]
    have hab : 2 * |a| * |b| ≤ a ^ 2 + b ^ 2 := by
      nlinarith [sq_nonneg (|a| - |b|), sq_abs a, sq_abs b]
    push_cast
    nlinarith [ih]

theorem abs_sum_sq_le (t : List ℚ) :
    (t.map (fun r => |r|)).sum ^ 2 ≤ (t.length : ℚ) * (t.map (fun r => r ^ 2)).sum := by
  induction t with
  | nil => simp
  | cons a u ih =>
    simp only [List.map_cons, List.sum_cons, List.length_cons]
    have h2 := two_mul_abs_sum_le a u
    have hS := sum_abs_nonneg u
    push_cast
    nlinarith [ih, h2, sq_abs a]

/-- C9. For every non-empty residual vector, the error metrics of source
lines 99-100 satisfy `RMSE ≥ MAE ≥ 0`: the mean absolute error is
non-negative and bounded by the square root of the mean squared error, both
computed over the same residual vector `y_test - predictions`. -/
theorem c9_rmse_ge_mae (actual pred : List ℚ) (h : residuals actual pred ≠ []) :
    0 ≤ mae actual pred ∧
    ((mae actual pred : ℚ) : ℝ) ≤ Real.sqrt ((mse actual pred : ℚ) : ℝ) := by
  have hn : 0 < ((residuals actual pred).length : ℚ) := by
    have := List.length_pos.mpr h
    exact_mod_cast this
  have hmae0 : 0 ≤ mae actual pred :=
    div_nonneg (sum_abs_nonneg (residuals actual pred)) (le_of_lt hn)
  refine ⟨hmae0, ?_⟩
  have hsq : (mae actual pred) ^ 2 ≤ mse actual pred := by
    rw [mae, mse, div_pow]
    rw [div_le_div_iff₀ (by positivity) hn]
    nlinarith [abs_sum_sq_le (residuals actual pred), hn]
  have hsqR : (((mae actual pred : ℚ) : ℝ)) ^ 2 ≤ ((mse actual pred : ℚ) : ℝ) := by
    exact_mod_cast hsq
  have hmae0R : (0 : ℝ) ≤ ((mae actual pred : ℚ) : ℝ) := by exact_mod_cast hmae0
  calc ((mae actual pred : ℚ) : ℝ) = Real.sqrt (((mae actual pred : ℚ) : ℝ) ^ 2) :=
        (Real.sqrt_sq hmae0R).symm
    _ ≤ Real.sqrt ((mse actual pred : ℚ) : ℝ) := Real.sqrt_le_sqrt hsqR

/-- Witness for C9 at the concrete test vector `[3, 1]` with predictions
`[1, 2]` (residuals `[2, -1]`). -/
theorem c9_witness :
    0 ≤ mae [3, 1] [1, 2] ∧
    ((mae [3, 1] [1, 2] : ℚ) : ℝ) ≤ Real.sqrt ((mse [3, 1] [1, 2] : ℚ) : ℝ) :=
  c9_rmse_ge_mae [3, 1] [1, 2] (by decide)

/-! ### C10: the per-town MAPE has no division guard -/

theorem allSome_isSome_iff (l : List (Option ℚ)) :
    (allSome l).isSome ↔ ∀ v ∈ l, v.isSome := by
  induction l with
  | nil => simp [allSome]
  | cons v t ih =>
    cases v with
    | none => simp [allSome]
    | some x => simp [allSome, ih]

theorem mapeTerms_isSome_iff (den : ℚ → ℚ) (actual pred : List ℚ)
    (hlen : actual.length = pred.length) :
    (∀ v ∈ List.zipWith (fun a p => (safeDiv (a - p) (den a)).map (fun q => |q|)) actual pred,
      v.isSome) ↔ ∀ a ∈ actual, den a ≠ 0 := by
  induction actual generalizing pred with
  | nil => simp
  | cons a t ih =>
    cases pred with
    | nil => simp at hlen
    | cons p pt =>
      have hlen2 : t.length = pt.length := by simpa using hlen
      simp only [List.zipWith_cons_cons, List.mem_cons, forall_eq_or_imp]
      rw [ih pt hlen2]
      constructor
      · rintro ⟨h1, h2⟩
        refine ⟨?_, h2⟩
        intro hda
        rw [safeDiv, if_pos hda] at h1
        simp at h1
      · rintro ⟨h1, h2⟩
        refine ⟨?_, h2⟩
        rw [safeDiv, if_neg h1]
        simp

/-- C10. Unlike the main MAPE of source line 102, whose denominator carries
the `1e-8` guard, the per-town MAPE inside `analyze_town_performance`
(line 256) divides by the raw actual values: the per-town mean is a real
number exactly when every actual value in the group is non-zero, while the
main MAPE is a real number exactly when every actual value avoids
`-1e-8` — in particular a zero actual reaches the unguarded
division-by-zero in the per-town computation but not in the main one. -/
theorem c10_town_mape_unguarded (actual pred : List ℚ)
    (hlen : actual.length = pred.length) :
    ((townMAPE actual pred).isSome ↔ ∀ a ∈ actual, a ≠ 0) ∧
    ((mape actual pred).isSome ↔ ∀ a ∈ actual, a + epsSafety ≠ 0) := by
  constructor
  · rw [townMAPE, Option.isSome_map', allSome_isSome_iff]
    exact mapeTerms_isSome_iff (fun a => a) actual pred hlen
  · rw [mape, Option.isSome_map', allSome_isSome_iff]
    exact mapeTerms_isSome_iff (fun a => a + epsSafety) actual pred hlen

/-- Witness for C10 at a test group whose first actual value is zero: the
per-town MAPE hits the unguarded division by zero (`none`), while the main
MAPE with the `1e-8` guard is still defined on the same data. -/
theorem c10_witness :
    townMAPE [0, 2] [1, 1] = none ∧ (mape [0, 2] [1, 1]).isSome := by
  have h := c10_town_mape_unguarded [0, 2] [1, 1] (by decide)
  refine ⟨Option.not_isSome_iff_eq_none.mp ?_, h.2.mpr ?_⟩
  · rw [h.1]
    intro hall
    exact hall 0 (by decide) rfl
  · intro a ha
    fin_cases ha <;> norm_num [epsSafety]

end SVR
